import Mathlib

/-!
Verification of the client-side streaming core of the memory_agent frontend.

The development embeds, as executable Lean definitions:
  * the SSE frame-decoding loop of `useEnhancedStreaming.ts` (`streamFunction`),
    including an incremental WHATWG UTF-8 decoder standing for `TextDecoder`
    with `stream: true` and a JSON value parser standing for `JSON.parse`;
  * the retry controller (`attemptReconnection` / `createResilientStream`)
    of `useEnhancedStreaming.ts` and the `createStreamWithRetry` variant of
    `useAIChat.ts`;
  * the conversation reducers: the `onData` callback of
    `EnhancedChatInterface.tsx` (`handleSubmit`) and of `ChatInterface.tsx`
    (`sendMessage`).

JavaScript built-ins used by the source (`String.prototype.split`,
`String.prototype.includes`, `Array.prototype.findIndex` with an index
argument, object spread, falsy `||` defaulting) are modelled by small
executable functions defined below with the exact ECMAScript semantics the
source relies on.
-/

namespace MemoryAgent

/-- ECMAScript `haystack.includes(needle)`: substring test, by scanning every
suffix for a prefix match. -/
def jsIncludes (needle : List Char) : List Char → Bool
  | [] => needle.isEmpty
  | c :: t => if needle.isPrefixOf (c :: t) then true else jsIncludes needle t

/-- ECMAScript falsy-defaulting `x || d` where `x : string | undefined`:
`undefined` and the empty string both fall through to the default. -/
def jsOr (x : Option String) (d : String) : String :=
  match x with
  | some s => if s = "" then d else s
  | none => d

/-- ECMAScript `str.split(sep)` for a single-character separator, on the
character-list representation: always returns at least one (possibly empty)
field, one more field per separator occurrence. -/
def jsSplitNl : List Char → List (List Char)
  | [] => [[]]
  | c :: t =>
    if c = '\n' then [] :: jsSplitNl t
    else
      match jsSplitNl t with
      | [] => [[c]]
      | l :: ls => (c :: l) :: ls

/-- ECMAScript `const last = lines.pop() || ''` on the split result: removes
the final field and returns it, defaulting to the empty string when the array
is empty (the empty-string field is falsy, which makes no difference). -/
def popLast : List (List Char) → List (List Char) × List Char
  | [] => ([], [])
  | [x] => ([], x)
  | x :: y :: t =>
    let r := popLast (y :: t)
    (x :: r.1, r.2)

/-! ## Incremental UTF-8 decoding (`TextDecoder` with `stream: true`)

`streamFunction` decodes each received byte chunk with a single stateful
`TextDecoder`, so multi-byte code points split across chunk boundaries are
reassembled.  The WHATWG UTF-8 decoder is a byte-at-a-time state machine;
`Utf8State` is its inter-byte state. -/
structure Utf8State where
  codePoint : Nat
  bytesSeen : Nat
  bytesNeeded : Nat
  lowerBoundary : Nat
  upperBoundary : Nat
deriving DecidableEq, Repr

def utf8Start : Utf8State := ⟨0, 0, 0, 0x80, 0xBF⟩

/-- Process one byte in the initial (between code points) decoder state,
per the WHATWG UTF-8 decode algorithm. -/
def utf8First (b : Nat) : Utf8State × List Char :=
  if b ≤ 0x7F then (utf8Start, [Char.ofNat b])
  else if 0xC2 ≤ b ∧ b ≤ 0xDF then
    ({ codePoint := b &&& 0x1F, bytesSeen := 0, bytesNeeded := 1,
       lowerBoundary := 0x80, upperBoundary := 0xBF }, [])
  else if 0xE0 ≤ b ∧ b ≤ 0xEF then
    ({ codePoint := b &&& 0xF, bytesSeen := 0, bytesNeeded := 2,
       lowerBoundary := if b = 0xE0 then 0xA0 else 0x80,
       upperBoundary := if b = 0xED then 0x9F else 0xBF }, [])
  else if 0xF0 ≤ b ∧ b ≤ 0xF4 then
    ({ codePoint := b &&& 0x7, bytesSeen := 0, bytesNeeded := 3,
       lowerBoundary := if b = 0xF0 then 0x90 else 0x80,
       upperBoundary := if b = 0xF4 then 0x8F else 0xBF }, [])
  else (utf8Start, ['�'])

/-- Process one byte in an arbitrary decoder state.  On an invalid
continuation byte the WHATWG algorithm emits U+FFFD, restores the byte and
reprocesses it from the initial state. -/
def utf8Step (s : Utf8State) (b : Nat) : Utf8State × List Char :=
  if s.bytesNeeded = 0 then utf8First b
  else if s.lowerBoundary ≤ b ∧ b ≤ s.upperBoundary then
    let cp := (s.codePoint <<< 6) ||| (b &&& 0x3F)
    if s.bytesSeen + 1 = s.bytesNeeded then (utf8Start, [Char.ofNat cp])
    else ({ codePoint := cp, bytesSeen := s.bytesSeen + 1,
            bytesNeeded := s.bytesNeeded,
            lowerBoundary := 0x80, upperBoundary := 0xBF }, [])
  else
    let r := utf8First b
    (r.1, '�' :: r.2)

/-- Decode a byte sequence starting from decoder state `s`, returning the
final decoder state and the characters produced. -/
def utf8Decode (s : Utf8State) : List Nat → Utf8State × List Char
  | [] => (s, [])
  | b :: bs =>
    let r := utf8Step s b
    let rest := utf8Decode r.1 bs
    (rest.1, r.2 ++ rest.2)

/-! ## The frame-decoding loop body

One iteration of the `while` loop in `streamFunction`
(`useEnhancedStreaming.ts`): decode the chunk, append to the carried text
buffer, split on newlines, retain the trailing partial line, and parse every
complete line that starts with `data: ` as JSON, silently skipping lines
that do not parse. -/
/-- Decoder state carried across `reader.read()` iterations: the incremental
`TextDecoder` state plus the retained partial line (`buffer`). -/
structure DecState where
  u : Utf8State
  buffer : List Char
deriving DecidableEq, Repr

def initDecState : DecState := ⟨utf8Start, []⟩

/-! ## JSON values and `JSON.parse`

The decoded event is whatever JSON value `JSON.parse` yields for the frame
payload; the reducers then read fields off it by convention.  Numbers are
kept as their source lexeme: no claim depends on numeric value semantics,
and two syntactically equal payloads always yield equal `Json` values, which
is all the frame-integrity statement needs.  String escapes cover the JSON
grammar except `\uXXXX` escapes denoting surrogate halves, which a Lean
`Char` cannot carry; payloads using them are treated as unparseable. -/
inductive Json where
  | null : Json
  | bool (b : Bool) : Json
  | num (lexeme : String) : Json
  | str (s : String) : Json
  | arr (elems : List Json) : Json
  | obj (members : List (String × Json)) : Json
deriving Inhabited

/-- JSON insignificant whitespace. -/
def jsonWs (c : Char) : Bool :=
  c = ' ' ∨ c = '\t' ∨ c = '\n' ∨ c = '\r'

def skipWs : List Char → List Char
  | [] => []
  | c :: t => if jsonWs c then skipWs t else c :: t

def hexVal (c : Char) : Option Nat :=
  if '0' ≤ c ∧ c ≤ '9' then some (c.toNat - '0'.toNat)
  else if 'a' ≤ c ∧ c ≤ 'f' then some (c.toNat - 'a'.toNat + 10)
  else if 'A' ≤ c ∧ c ≤ 'F' then some (c.toNat - 'A'.toNat + 10)
  else none

/-- Parse the remainder of a JSON string literal (the opening quote already
consumed), returning the decoded characters and the rest of the input.  The
fuel argument only serves termination; every call site passes one more than
the input length, which one consumed character per step can never exhaust. -/
def parseStringRest : Nat → List Char → Option (List Char × List Char)
  | 0, _ => none
  | fuel + 1, l =>
    match l with
    | [] => none
    | c :: t =>
    if c = '"' then some ([], t)
    else if c = '\\' then
      match t with
      | [] => none
      | e :: t2 =>
        let cont (d : Char) (rest : List Char) : Option (List Char × List Char) :=
          match parseStringRest fuel rest with
          | some (s, r) => some (d :: s, r)
          | none => none
        if e = '"' then cont '"' t2
        else if e = '\\' then cont '\\' t2
        else if e = '/' then cont '/' t2
        else if e = 'b' then cont '\x08' t2
        else if e = 'f' then cont '\x0C' t2
        else if e = 'n' then cont '\n' t2
        else if e = 'r' then cont '\r' t2
        else if e = 't' then cont '\t' t2
        else if e = 'u' then
          match t2 with
          | h1 :: h2 :: h3 :: h4 :: t3 =>
            match hexVal h1, hexVal h2, hexVal h3, hexVal h4 with
            | some v1, some v2, some v3, some v4 =>
              let n := ((v1 * 16 + v2) * 16 + v3) * 16 + v4
              if 0xD800 ≤ n ∧ n ≤ 0xDFFF then none
              else cont (Char.ofNat n) t3
            | _, _, _, _ => none
          | _ => none
        else none
    else if c.toNat < 0x20 then none
    else
      match parseStringRest fuel t with
      | some (s, r) => some (c :: s, r)
      | none => none

def isDigit (c : Char) : Bool := '0' ≤ c ∧ c ≤ '9'

def takeDigits : List Char → List Char × List Char
  | [] => ([], [])
  | c :: t =>
    if isDigit c then
      let r := takeDigits t
      (c :: r.1, r.2)
    else ([], c :: t)

/-- Parse a JSON number lexeme: `-? (0 | [1-9][0-9]*) frac? exp?`. -/
def parseNumber (l : List Char) : Option (List Char × List Char) :=
  let (sign, l1) :=
    match l with
    | '-' :: t => (['-'], t)
    | _ => (([] : List Char), l)
  match l1 with
  | [] => none
  | c :: _ =>
    if ¬ isDigit c then none
    else
      let (intPart, l2) :=
        if c = '0' then ([c], l1.tail)
        else takeDigits l1
      let (fracPart, l3) :=
        match l2 with
        | '.' :: t =>
          let r := takeDigits t
          if r.1.isEmpty then (none, l2) else (some ('.' :: r.1), r.2)
        | _ => (none, l2)
      match fracPart with
      | none =>
        match l2 with
        | '.' :: _ => none
        | _ =>
          parseExpPart (sign ++ intPart) l2
      | some f => parseExpPart (sign ++ intPart ++ f) l3
where
  parseExpPart (acc : List Char) (l : List Char) : Option (List Char × List Char) :=
    match l with
    | 'e' :: t => parseExpSign acc 'e' t
    | 'E' :: t => parseExpSign acc 'E' t
    | _ => some (acc, l)
  parseExpSign (acc : List Char) (e : Char) (l : List Char) :
      Option (List Char × List Char) :=
    let (sg, l1) :=
      match l with
      | '+' :: t => (['+'], t)
      | '-' :: t => (['-'], t)
      | _ => (([] : List Char), l)
    let r := takeDigits l1
    if r.1.isEmpty then none else some (acc ++ e :: sg ++ r.1, r.2)

mutual

/-- Parse one JSON value with recursion fuel; on success returns the value
and the unconsumed input. -/
def parseVal : Nat → List Char → Option (Json × List Char)
  | 0, _ => none
  | fuel + 1, l =>
    match skipWs l with
    | [] => none
    | c :: t =>
      if c = 'n' then
        match t with
        | 'u' :: 'l' :: 'l' :: r => some (Json.null, r)
        | _ => none
      else if c = 't' then
        match t with
        | 'r' :: 'u' :: 'e' :: r => some (Json.bool true, r)
        | _ => none
      else if c = 'f' then
        match t with
        | 'a' :: 'l' :: 's' :: 'e' :: r => some (Json.bool false, r)
        | _ => none
      else if c = '"' then
        match parseStringRest (t.length + 1) t with
        | some (s, r) => some (Json.str (String.mk s), r)
        | none => none
      else if c = '\x7b' then
        match skipWs t with
        | '\x7d' :: r => some (Json.obj [], r)
        | _ =>
          match parseMembers fuel t with
          | some (ms, r) => some (Json.obj ms, r)
          | none => none
      else if c = '[' then
        match skipWs t with
        | ']' :: r => some (Json.arr [], r)
        | _ =>
          match parseElems fuel t with
          | some (es, r) => some (Json.arr es, r)
          | none => none
      else if c = '-' ∨ isDigit c then
        match parseNumber (c :: t) with
        | some (lex, r) => some (Json.num (String.mk lex), r)
        | none => none
      else none

/-- Parse one or more comma-separated `"key": value` members followed by a
closing brace. -/
def parseMembers : Nat → List Char → Option (List (String × Json) × List Char)
  | 0, _ => none
  | fuel + 1, l =>
    match skipWs l with
    | '"' :: t =>
      match parseStringRest (t.length + 1) t with
      | some (k, r1) =>
        match skipWs r1 with
        | ':' :: r2 =>
          match parseVal fuel r2 with
          | some (v, r3) =>
            match skipWs r3 with
            | ',' :: r4 =>
              match parseMembers fuel r4 with
              | some (ms, r5) => some ((String.mk k, v) :: ms, r5)
              | none => none
            | '\x7d' :: r4 => some ([(String.mk k, v)], r4)
            | _ => none
          | none => none
        | _ => none
      | none => none
    | _ => none

/-- Parse one or more comma-separated array elements followed by a closing
bracket. -/
def parseElems : Nat → List Char → Option (List Json × List Char)
  | 0, _ => none
  | fuel + 1, l =>
    match parseVal fuel l with
    | some (v, r1) =>
      match skipWs r1 with
      | ',' :: r2 =>
        match parseElems fuel r2 with
        | some (es, r3) => some (v :: es, r3)
        | none => none
      | ']' :: r2 => some ([v], r2)
      | _ => none
    | none => none

end

/-- The model of `JSON.parse(text)`: parse one value, then require only
whitespace to remain; `none` models a thrown `SyntaxError`. -/
def parseJson (l : List Char) : Option Json :=
  match parseVal (l.length + 1) l with
  | some (j, rest) => if (skipWs rest).isEmpty then some j else none
  | none => none

/-- Handling of one complete line by the loop body: lines starting with the
literal `data: ` have their remainder parsed as JSON (`line.slice(6)`), all
other lines are discarded, and a payload that fails to parse is dropped. -/
def frameOf (line : List Char) : Option Json :=
  if ("data: ".toList).isPrefixOf line then parseJson (line.drop 6) else none

/-- One iteration of the chunk loop in `streamFunction`: incremental decode,
append to the buffer, split on `'\n'`, retain the trailing partial field as
the new buffer, and emit the events of the complete lines in order. -/
def feed (st : DecState) (chunk : List Nat) : DecState × List Json :=
  let d := utf8Decode st.u chunk
  let parts := jsSplitNl (st.buffer ++ d.2)
  let p := popLast parts
  (⟨d.1, p.2⟩, p.1.filterMap frameOf)

/-- Run the chunk loop over a whole list of received chunks, concatenating
the events emitted for each chunk, in order. -/
def feedAll (st : DecState) : List (List Nat) → DecState × List Json
  | [] => (st, [])
  | c :: cs =>
    let r := feed st c
    let rest := feedAll r.1 cs
    (rest.1, r.2 ++ rest.2)

/-! ## Transport session and resilience controller

`createResilientStream` (useEnhancedStreaming.ts) runs `streamFunction`
once; if it throws, it reports the error through `onError` and — only when
the error message contains `fetch` or `network` — starts
`attemptReconnection`.  A run of `streamFunction` is modelled against a
transcript of what `fetch` and the successive `reader.read()` calls return:
each read either delivers a chunk, reports end-of-body (`done`), or rejects
with a JavaScript error (an abort surfaces here as an error named
`AbortError`).  The model returns everything the caller can observe: the
`onData` events in order, whether `onComplete` ran, and the thrown error. -/
structure JsError where
  name : String
  message : String
deriving DecidableEq, Repr

inductive ReadEvt where
  | chunk (bytes : List Nat)
  | done
  | throwErr (e : JsError)

/-- Outcome of the `fetch` call of one attempt: either the fetch promise
rejects, or a response arrives with its `ok` flag, status, status text and
(optionally) a readable body transcript. -/
inductive FetchResult where
  | netThrow (e : JsError)
  | resp (ok : Bool) (status : Nat) (statusText : String)
      (body : Option (List ReadEvt))

structure SFRun where
  events : List Json
  completed : Bool
  thrown : Option JsError

/-- The `while (true)` read loop of `streamFunction`, with its surrounding
`try`/`catch`: chunks are fed through the frame decoder, `done` breaks the
loop (after which `onComplete?.()` runs), a rejection named `AbortError` is
swallowed (`return`), and any other rejection is rethrown.  An exhausted
transcript means the next read never resolves, so nothing more is observed. -/
def readLoop (st : DecState) : List ReadEvt → List Json × Bool × Option JsError
  | [] => ([], false, none)
  | .chunk v :: rest =>
    let r := feed st v
    let k := readLoop r.1 rest
    (r.2 ++ k.1, k.2.1, k.2.2)
  | .done :: _ => ([], true, none)
  | .throwErr e :: _ => ([], false, if e.name = "AbortError" then none else some e)

/-- One invocation of `streamFunction` against a fetch outcome: a non-`ok`
response throws `HTTP error! status: N` before any body is read, a missing
body throws `No response body`, otherwise the read loop runs. -/
def streamFunctionRun : FetchResult → SFRun
  | .netThrow e => ⟨[], false, some e⟩
  | .resp ok status _ body =>
    if ok then
      match body with
      | none => ⟨[], false, some ⟨"Error", "No response body"⟩⟩
      | some reads =>
        let r := readLoop initDecState reads
        ⟨r.1, r.2.1, r.2.2⟩
    else ⟨[], false, some ⟨"Error", "HTTP error! status: " ++ toString status⟩⟩

/-- The gate in `createResilientStream`'s catch block: reconnection is
attempted only for errors whose message mentions `fetch` or `network`. -/
def shouldRetryMessage (m : String) : Bool :=
  jsIncludes "fetch".toList m.toList || jsIncludes "network".toList m.toList

/-- Everything observable of one `createResilientStream` call: `onData`
events, number of `onComplete` invocations, `onError` invocations, the
backoff delays passed to `setTimeout` in order, the final `streamState.error`
value, the final `streamState.retryCount`, and the number of `onReconnect`
invocations. -/
structure ResRun where
  events : List Json
  completes : Nat
  onErrorCalls : List JsError
  delays : List Nat
  stateError : Option String
  retryCountFinal : Nat
  reconnects : Nat

/-- The recursion of `attemptReconnection (streamFunction, currentRetryCount)`.
The source recurses while `currentRetryCount < maxRetries`; here `fuel`
carries `maxRetries - currentRetryCount` (the number of retries still
allowed) so that the recursion is structural, and `n` is
`currentRetryCount` itself.  With fuel exhausted (`n >= maxRetries`) it only
records the terminal `Failed to reconnect after N attempts` error; otherwise
it schedules a delay of `retryDelay * 2 ^ n`, reruns `streamFunction`
(attempt `n + 1`), resets the retry counter on success (invoking
`onReconnect`), and recurses on failure. -/
def attemptRec (maxRetries retryDelay : Nat) (outcomes : Nat → FetchResult) :
    Nat → Nat → ResRun
  | 0, n =>
    ⟨[], 0, [], [],
      some ("Failed to reconnect after " ++ toString maxRetries ++ " attempts"),
      n, 0⟩
  | fuel + 1, n =>
    let d := retryDelay * 2 ^ n
    let r := streamFunctionRun (outcomes (n + 1))
    match r.thrown with
    | none =>
      ⟨r.events, if r.completed then 1 else 0, [], [d], none, 0, 1⟩
    | some _ =>
      let rest := attemptRec maxRetries retryDelay outcomes fuel (n + 1)
      ⟨r.events ++ rest.events, (if r.completed then 1 else 0) + rest.completes,
        rest.onErrorCalls, d :: rest.delays, rest.stateError,
        rest.retryCountFinal, rest.reconnects⟩

/-- One `createResilientStream` call: run `streamFunction`; on a throw,
invoke `onError` and start `attemptReconnection` only when the message
passes the `fetch`/`network` gate. -/
def resilientRun (maxRetries retryDelay : Nat) (outcomes : Nat → FetchResult) :
    ResRun :=
  let r := streamFunctionRun (outcomes 0)
  match r.thrown with
  | none => ⟨r.events, if r.completed then 1 else 0, [], [], none, 0, 0⟩
  | some e =>
    if shouldRetryMessage e.message then
      let rest := attemptRec maxRetries retryDelay outcomes maxRetries 0
      ⟨r.events ++ rest.events, (if r.completed then 1 else 0) + rest.completes,
        e :: rest.onErrorCalls, rest.delays, rest.stateError,
        rest.retryCountFinal, rest.reconnects⟩
    else
      ⟨r.events, if r.completed then 1 else 0, [e], [], some e.message, 0, 0⟩

/-! The `createStreamWithRetry` variant in `useAIChat.ts`
(`useAdvancedStreaming`): the whole attempt, fetch included, sits in one
`try`/`catch`; the catch retries while `retryCount < maxRetries` and the
message does not mention `AbortError`, after a delay of
`min(1000 * 2 ^ (retryCount - 1), 10000)` for the incremented count, and
otherwise rethrows. -/
/-- Read loop of `createStreamWithRetry`: no inner abort handling — any
rejection propagates to the shared catch block. -/
def readLoopAdv (st : DecState) : List ReadEvt → List Json × Bool × Option JsError
  | [] => ([], false, none)
  | .chunk v :: rest =>
    let r := feed st v
    let k := readLoopAdv r.1 rest
    (r.2 ++ k.1, k.2.1, k.2.2)
  | .done :: _ => ([], true, none)
  | .throwErr e :: _ => ([], false, some e)

def streamRunAdv : FetchResult → SFRun
  | .netThrow e => ⟨[], false, some e⟩
  | .resp ok status statusText body =>
    if ok then
      match body with
      | none => ⟨[], false, some ⟨"Error", "No response body"⟩⟩
      | some reads =>
        let r := readLoopAdv initDecState reads
        ⟨r.1, r.2.1, r.2.2⟩
    else
      ⟨[], false, some ⟨"Error", "HTTP " ++ toString status ++ ": " ++ statusText⟩⟩

structure AdvRun where
  events : List Json
  delays : List Nat
  thrown : Option JsError

/-- The `attemptConnection` recursion of `createStreamWithRetry`; as with
`attemptRec`, `fuel` carries `maxRetries - retryCount` to make the source's
`retryCount < maxRetries` recursion structural, and `n` is `retryCount`. -/
def advAttempt (outcomes : Nat → FetchResult) : Nat → Nat → AdvRun
  | fuel, n =>
    let r := streamRunAdv (outcomes n)
    match r.thrown with
    | none => ⟨r.events, [], none⟩
    | some e =>
      match fuel with
      | 0 => ⟨r.events, [], some e⟩
      | fuel + 1 =>
        if jsIncludes "AbortError".toList e.message.toList then
          ⟨r.events, [], some e⟩
        else
          let d := min (1000 * 2 ^ n) 10000
          let rest := advAttempt outcomes fuel (n + 1)
          ⟨r.events ++ rest.events, d :: rest.delays, rest.thrown⟩

/-! ## Claims about the resilience controller and end-of-body handling -/
/-- A fetch outcome in which every attempt fails at the network layer with
the browser's `Failed to fetch` error. -/
def allNetFail : Nat → FetchResult :=
  fun _ => FetchResult.netThrow ⟨"TypeError", "Failed to fetch"⟩

/-- The payload of a syntactically complete `data: ` frame that is missing
its newline terminator. -/
def unterminatedFrame : List Char := "data: \x7b\"type\":\"complete\"\x7d".toList

/-! ## The conversation reducers

The `onData` callbacks of `EnhancedChatInterface.tsx` and `ChatInterface.tsx`
mutate a message list plus a few closure variables (`thinkingMessage`,
`assistantMessage`, `toolCallMessage`).  Message ids come from
`generateMessageId`, which derives them from `Date.now()` and
`Math.random()`; the model threads an explicit id supply `ids : Nat → ι`
together with a counter of ids consumed, so one run of the real reducer
corresponds to the model run at the supply that records the ids the clock
and RNG actually produced (distinct in the source by construction, hence
the injectivity hypotheses).  The `timestamp: new Date()` field is wall
clock time, never compared by the source, and is not modelled.  The
`setTimeout`-delayed removal of a finished thinking message is a separate
asynchronous action outside the event alphabet and is likewise not part of
`apply`. -/
/-- A metadata scalar (`Record<string, string | number | boolean>`); only
strings and booleans are ever stored by the reducers. -/
inductive MVal where
  | s (v : String)
  | b (v : Bool)
deriving DecidableEq, Repr

/-- ECMAScript truthiness of a metadata scalar. -/
def mvalTruthy : MVal → Bool
  | .s v => v ≠ ""
  | .b v => v

/-- Property lookup on the metadata object (`md?.key`). -/
def jsGet (md : List (String × MVal)) (k : String) : Option MVal :=
  match md with
  | [] => none
  | (k2, v) :: t => if k2 = k then some v else jsGet t k

/-- Object spread override `{...md, k: v}`: replaces the value in place when
the key exists, otherwise appends the new key. -/
def jsSetKey (md : List (String × MVal)) (k : String) (v : MVal) :
    List (String × MVal) :=
  match md with
  | [] => [(k, v)]
  | (k2, v2) :: t => if k2 = k then (k, v) :: t else (k2, v2) :: jsSetKey t k v

/-- ECMAScript `arr.findIndex((x, i) => p x i)` starting at index `i`
(`none` models `-1`). -/
def jsFindIndexFrom (p : α → Nat → Bool) : List α → Nat → Option Nat
  | [], _ => none
  | a :: t, i => if p a i then some i else jsFindIndexFrom p t (i + 1)

def jsFindIndex (p : α → Nat → Bool) (l : List α) : Option Nat :=
  jsFindIndexFrom p l 0

/-- ECMAScript `arr.map((x, i) => f x i)` starting at index `i`. -/
def jsMapWithIndexFrom (f : α → Nat → α) : List α → Nat → List α
  | [], _ => []
  | a :: t, i => f a i :: jsMapWithIndexFrom f t (i + 1)

def jsMapWithIndex (f : α → Nat → α) (l : List α) : List α :=
  jsMapWithIndexFrom f l 0

/-- The `StreamData` interface: the event's `type` plus the optional fields
the reducers read (`token`, `tool_name`, `parameters`), each possibly
absent. -/
structure StreamData where
  type : String
  token : Option String
  tool_name : Option String
  parameters : Option String
deriving DecidableEq, Repr

/-- The `Message` record of the two chat interfaces (`timestamp` omitted,
see above).  `ChatInterface` messages carry no `isStreaming` flag; its
reducer model leaves the field `false` throughout. -/
structure Msg (ι : Type) where
  id : ι
  type : String
  content : String
  isTemporary : Bool
  isStreaming : Bool
  metadata : List (String × MVal)
deriving DecidableEq

/-- The id-independent part of a message: everything except the
clock-and-RNG-derived id. -/
structure MsgView where
  type : String
  content : String
  isTemporary : Bool
  isStreaming : Bool
  metadata : List (String × MVal)
deriving DecidableEq, Repr

def Msg.view (m : Msg ι) : MsgView :=
  ⟨m.type, m.content, m.isTemporary, m.isStreaming, m.metadata⟩

def Msg.mapId (f : ι → κ) (m : Msg ι) : Msg κ :=
  ⟨f m.id, m.type, m.content, m.isTemporary, m.isStreaming, m.metadata⟩

/-- The `tool_name` merge of the `tool_call` branch:
`(data.tool_name as string) || msg.metadata?.tool_name || 'unknown'`. -/
def toolNameValue (dn : Option String) (md : List (String × MVal)) : MVal :=
  let fallback :=
    match jsGet md "tool_name" with
    | some v => if mvalTruthy v then v else MVal.s "unknown"
    | none => MVal.s "unknown"
  match dn with
  | some s => if s = "" then fallback else MVal.s s
  | none => fallback

/-- Reducer state of `EnhancedChatInterface.handleSubmit`: the rendered
message list, the three closure variables, and the count of ids consumed
from the supply. -/
structure EnhState (ι : Type) where
  messages : List (Msg ι)
  thinkingMessage : Option (Msg ι)
  assistantMessage : Option (Msg ι)
  toolCallMessage : Option (Msg ι)
  fresh : Nat
deriving DecidableEq

def enhInit : EnhState ι := ⟨[], none, none, none, 0⟩

/-- One `onData` dispatch of `EnhancedChatInterface.handleSubmit`, branch for
branch in source order. -/
def stepEnh (ids : Nat → ι) [DecidableEq ι] (d : StreamData) (st : EnhState ι) :
    EnhState ι :=
  if d.type = "thinking_start" then
    match st.thinkingMessage with
    | some _ => st
    | none =>
      let tm : Msg ι := ⟨ids st.fresh, "thinking", "", true, true, []⟩
      { st with
        messages := st.messages ++ [tm]
        thinkingMessage := some tm
        fresh := st.fresh + 1 }
  else if d.type = "thinking" then
    match st.thinkingMessage with
    | none => st
    | some tm =>
      let updated := tm.content ++ (d.token.getD "")
      { st with
        messages := st.messages.map fun (m : Msg _) =>
          if m.id = tm.id then { m with content := updated } else m
        thinkingMessage := some { tm with content := updated } }
  else if d.type = "thinking_end" then
    let st1 :=
      match st.thinkingMessage with
      | none => st
      | some tm =>
        { st with messages := st.messages.map fun (m : Msg _) =>
            if m.id = tm.id then { m with isStreaming := false } else m }
    let am : Msg ι := ⟨ids st1.fresh, "assistant", "", false, true, []⟩
    { st1 with
      messages := st1.messages ++ [am]
      assistantMessage := some am
      fresh := st1.fresh + 1 }
  else if d.type = "tool_call_start" then
    let tc : Msg ι := ⟨ids st.fresh, "tool_call", "", false, true,
      [("tool_name", MVal.s (jsOr d.tool_name "unknown")),
        ("type", MVal.s d.type)]⟩
    { st with
      messages := st.messages ++ [tc]
      toolCallMessage := some tc
      fresh := st.fresh + 1 }
  else if d.type = "tool_call" then
    match st.toolCallMessage with
    | none => st
    | some tc =>
      let updated := d.token.getD ""
      { st with
        messages := st.messages.map fun (m : Msg _) =>
          if m.id = tc.id then
            { m with
              content := updated
              metadata :=
                jsSetKey
                  (jsSetKey m.metadata "tool_name"
                    (toolNameValue d.tool_name m.metadata))
                  "parameters" (MVal.s (jsOr d.parameters "")) }
          else m
        toolCallMessage := some { tc with content := updated } }
  else if d.type = "tool_call_end" then
    match st.toolCallMessage with
    | none => st
    | some tc =>
      { st with messages := st.messages.map fun (m : Msg _) =>
          if m.id = tc.id then { m with isStreaming := false } else m }
  else if d.type = "tool_result_start" then
    let tr : Msg ι := ⟨ids st.fresh, "tool_result", "", false, true,
      [("type", MVal.s d.type)]⟩
    { st with messages := st.messages ++ [tr], fresh := st.fresh + 1 }
  else if d.type = "tool_result" then
    match jsFindIndex
        (fun (m : Msg ι) i => m.type == "tool_result"
          && i == st.messages.length - 1) st.messages with
    | none => st
    | some idx =>
      { st with
        messages := jsMapWithIndex
          (fun m i =>
            if i == idx then { m with content := m.content ++ d.token.getD "" }
            else m) st.messages }
  else if d.type = "tool_result_end" then
    match jsFindIndex
        (fun (m : Msg ι) i => m.type == "tool_result"
          && i == st.messages.length - 1) st.messages with
    | none => st
    | some idx =>
      { st with
        messages := jsMapWithIndex
          (fun m i => if i == idx then { m with isStreaming := false } else m)
          st.messages }
  else if d.type = "response" then
    match st.assistantMessage with
    | none => st
    | some am =>
      let updated := am.content ++ d.token.getD ""
      { st with
        messages := st.messages.map fun (m : Msg _) =>
          if m.id = am.id then { m with content := updated } else m
        assistantMessage := some { am with content := updated } }
  else if d.type = "complete" then
    let st1 :=
      match st.assistantMessage with
      | none => st
      | some am =>
        { st with messages := st.messages.map fun (m : Msg _) =>
            if m.id = am.id then { m with isStreaming := false } else m }
    { st1 with messages := st1.messages.filter fun (m : Msg _) => !m.isTemporary }
  else if d.type = "error" then
    let em : Msg ι :=
      ⟨ids st.fresh, "error", jsOr d.token "An error occurred", false, false, []⟩
    { st with messages := st.messages ++ [em], fresh := st.fresh + 1 }
  else st

/-- Run the Enhanced reducer over an event sequence from a fresh state. -/
def runEnh (ids : Nat → ι) [DecidableEq ι] (es : List StreamData) : EnhState ι :=
  es.foldl (fun st d => stepEnh ids d st) enhInit

/-- Reducer state of `ChatInterface.sendMessage` (no `toolCallMessage`
closure there). -/
structure ChatState (ι : Type) where
  messages : List (Msg ι)
  thinkingMessage : Option (Msg ι)
  assistantMessage : Option (Msg ι)
  fresh : Nat
deriving DecidableEq

def chatInit : ChatState ι := ⟨[], none, none, 0⟩

/-- One `onData` dispatch of `ChatInterface.sendMessage`, branch for branch
in source order.  In the `thinking` branch the list copy of the message gets
`content: ''` (only the closure accumulates the raw text) and an
`isThinking` metadata flag; `thinking` with an absent `token` concatenates
the string `"undefined"`, as `+ data.token` does in JavaScript. -/
def stepChat (ids : Nat → ι) [DecidableEq ι] (d : StreamData) (st : ChatState ι) :
    ChatState ι :=
  if d.type = "thinking_start" then
    match st.thinkingMessage with
    | some _ => st
    | none =>
      let tm : Msg ι := ⟨ids st.fresh, "thinking", "", true, false, []⟩
      { st with
        messages := st.messages ++ [tm]
        thinkingMessage := some tm
        fresh := st.fresh + 1 }
  else if d.type = "thinking" then
    match st.thinkingMessage with
    | none => st
    | some tm =>
      let updated := tm.content ++ (match d.token with
        | some t => t
        | none => "undefined")
      { st with
        messages := st.messages.map fun (m : Msg _) =>
          if m.id = tm.id then
            { m with
              content := ""
              metadata := jsSetKey m.metadata "isThinking" (MVal.b true) }
          else m
        thinkingMessage := some { tm with content := updated } }
  else if d.type = "thinking_end" then
    let st1 :=
      match st.thinkingMessage with
      | none => st
      | some tm =>
        { st with messages := st.messages.map fun (m : Msg _) =>
            if m.id = tm.id then
              { m with metadata := jsSetKey m.metadata "fadeOut" (MVal.b true) }
            else m }
    let am : Msg ι := ⟨ids st1.fresh, "assistant", "", false, false, []⟩
    { st1 with
      messages := st1.messages ++ [am]
      assistantMessage := some am
      fresh := st1.fresh + 1 }
  else if d.type = "response" then
    let c :=
      match st.assistantMessage with
      | some am => (st, am)
      | none =>
        let am : Msg ι := ⟨ids st.fresh, "assistant", "", false, false, []⟩
        ({ st with
            messages := st.messages ++ [am]
            assistantMessage := some am
            fresh := st.fresh + 1 }, am)
    let st1 := c.1
    let am := c.2
    let updated := am.content ++ d.token.getD ""
    { st1 with
      messages := st1.messages.map fun (m : Msg _) =>
        if m.id = am.id then { m with content := updated } else m
      assistantMessage := some { am with content := updated } }
  else if d.type = "action" then
    { st with
      messages := st.messages ++ [⟨ids st.fresh, "action", d.token.getD "", false, false, []⟩]
      fresh := st.fresh + 1 }
  else if d.type = "action_input" then
    { st with
      messages := st.messages ++ [⟨ids st.fresh, "action_input", d.token.getD "", false, false, []⟩]
      fresh := st.fresh + 1 }
  else if d.type = "observation" then
    { st with
      messages := st.messages ++ [⟨ids st.fresh, "observation", d.token.getD "", false, false, []⟩]
      fresh := st.fresh + 1 }
  else if d.type = "final_answer_header" then
    { st with
      messages := st.messages ++ [⟨ids st.fresh, "final_answer_header", d.token.getD "", false, false, []⟩]
      fresh := st.fresh + 1 }
  else if d.type = "error" then
    match st.assistantMessage with
    | some am =>
      let updated := am.content ++ d.token.getD ""
      { st with
        messages := st.messages.map fun (m : Msg _) =>
          if m.id = am.id then { m with content := updated, type := "error" } else m
        assistantMessage := some { am with content := updated } }
    | none =>
      { st with
        messages := st.messages ++ [⟨ids st.fresh, "error", d.token.getD "", false, false, []⟩]
        fresh := st.fresh + 1 }
  else if d.type = "complete" then
    { st with messages := st.messages.filter fun (m : Msg _) => !m.isTemporary }
  else st

/-- Run the ChatInterface reducer over an event sequence from a fresh
state. -/
def runChat (ids : Nat → ι) [DecidableEq ι] (es : List StreamData) : ChatState ι :=
  es.foldl (fun st d => stepChat ids d st) chatInit

def EnhState.mapIds (f : ι → κ) (st : EnhState ι) : EnhState κ :=
  ⟨st.messages.map (Msg.mapId f), st.thinkingMessage.map (Msg.mapId f),
    st.assistantMessage.map (Msg.mapId f), st.toolCallMessage.map (Msg.mapId f),
    st.fresh⟩

def ChatState.mapIds (f : ι → κ) (st : ChatState ι) : ChatState κ :=
  ⟨st.messages.map (Msg.mapId f), st.thinkingMessage.map (Msg.mapId f),
    st.assistantMessage.map (Msg.mapId f), st.fresh⟩

/-! ## Claims about the conversation reducers -/
/-- The event sequence of the end-to-end scenario. -/
def c2Events : List StreamData :=
  [⟨"thinking_start", none, none, none⟩,
   ⟨"thinking", some "eval", none, none⟩,
   ⟨"thinking_end", none, none, none⟩,
   ⟨"tool_call_start", none, some "Weather", none⟩,
   ⟨"tool_call", some "Paris", none, none⟩,
   ⟨"tool_call_end", none, none, none⟩,
   ⟨"tool_result_start", none, none, none⟩,
   ⟨"tool_result", some "23C", none, none⟩,
   ⟨"tool_result_end", none, none, none⟩,
   ⟨"response", some "It\x27s 23C", none, none⟩,
   ⟨"complete", none, none, none⟩]

/-- The ephemeral-cleanup event sequence. -/
def c7Events : List StreamData :=
  [⟨"thinking_start", none, none, none⟩,
   ⟨"thinking", some "a", none, none⟩,
   ⟨"thinking_end", none, none, none⟩,
   ⟨"response", some "hi", none, none⟩,
   ⟨"complete", none, none, none⟩]

/-- A one-event sequence that creates a message in both reducers. -/
def c9Events : List StreamData := [⟨"error", some "x", none, none⟩]

/-! ## Theorems -/

theorem jsSplitNl_ne_nil (l : List Char) : jsSplitNl l ≠ [] := by
  induction l with
  | nil => simp [jsSplitNl]
  | cons c t ih =>
    simp only [jsSplitNl]
    split
    · simp
    · cases h : jsSplitNl t with
      | nil => simp
      | cons p ps => simp

theorem jsSplitNl_cons_nl (t : List Char) :
    jsSplitNl ('\n' :: t) = [] :: jsSplitNl t := by
  simp [jsSplitNl]

theorem jsSplitNl_cons_other {c : Char} {t q : List Char} {qs : List (List Char)}
    (hc : c ≠ '\n') (h : jsSplitNl t = q :: qs) :
    jsSplitNl (c :: t) = (c :: q) :: qs := by
  simp [jsSplitNl, if_neg hc, h]

/-- Splitting a concatenation: the fields of `a` except its trailing partial
field are final, and the trailing partial field of `a` continues into `b`.
This is the law behind retaining `buffer = lines.pop()` between reads. -/
theorem jsSplitNl_append (a b : List Char) :
    jsSplitNl (a ++ b) =
      (popLast (jsSplitNl a)).1 ++ jsSplitNl ((popLast (jsSplitNl a)).2 ++ b) := by
  induction a with
  | nil => simp [jsSplitNl, popLast]
  | cons c t ih =>
    rw [List.cons_append]
    by_cases hc : c = '\n'
    · subst hc
      cases ha : jsSplitNl t with
      | nil => exact absurd ha (jsSplitNl_ne_nil t)
      | cons q qs =>
        rw [ha] at ih
        rw [jsSplitNl_cons_nl, jsSplitNl_cons_nl, ha, ih]
        simp [popLast]
    · cases ha : jsSplitNl t with
      | nil => exact absurd ha (jsSplitNl_ne_nil t)
      | cons q qs =>
        rw [ha] at ih
        cases qs with
        | nil =>
          simp only [popLast, List.nil_append] at ih
          cases hqb : jsSplitNl (q ++ b) with
          | nil => exact absurd hqb (jsSplitNl_ne_nil _)
          | cons r rs =>
            rw [jsSplitNl_cons_other hc (ih.trans hqb), jsSplitNl_cons_other hc ha]
            simp only [popLast, List.nil_append, List.cons_append]
            rw [jsSplitNl_cons_other hc hqb]
        | cons q2 qs2 =>
          simp only [popLast, List.cons_append] at ih
          rw [jsSplitNl_cons_other hc ih, jsSplitNl_cons_other hc ha]
          simp [popLast]

theorem utf8Decode_append (s : Utf8State) (a b : List Nat) :
    utf8Decode s (a ++ b) =
      ((utf8Decode (utf8Decode s a).1 b).1,
        (utf8Decode s a).2 ++ (utf8Decode (utf8Decode s a).1 b).2) := by
  induction a generalizing s with
  | nil => simp [utf8Decode]
  | cons x xs ih => simp [utf8Decode, ih, List.append_assoc]

theorem popLast_append (X Y : List (List Char)) (hY : Y ≠ []) :
    popLast (X ++ Y) = (X ++ (popLast Y).1, (popLast Y).2) := by
  induction X with
  | nil => simp
  | cons x X ih =>
    cases hXY : X ++ Y with
    | nil =>
      rcases List.append_eq_nil.mp hXY with ⟨-, h2⟩
      exact absurd h2 hY
    | cons z zs =>
      simp only [List.cons_append, hXY, popLast]
      rw [← hXY, ih]

/-- Feeding a concatenation of two byte sequences is the same as feeding them
one after the other: both the emitted events and the carried decoder state
agree. -/
theorem feed_append (st : DecState) (a b : List Nat) :
    feed st (a ++ b) =
      ((feed (feed st a).1 b).1, (feed st a).2 ++ (feed (feed st a).1 b).2) := by
  simp only [feed, utf8Decode_append]
  rw [← List.append_assoc, jsSplitNl_append,
    popLast_append _ _ (jsSplitNl_ne_nil _)]
  simp [List.filterMap_append]

/-- A text fragment containing no newline splits into a single field. -/
theorem jsSplitNl_no_nl (l : List Char) (h : '\n' ∉ l) : jsSplitNl l = [l] := by
  induction l with
  | nil => rfl
  | cons c t ih =>
    have hc : c ≠ '\n' := fun hc => h (hc ▸ List.mem_cons_self c t)
    have ht : '\n' ∉ t := fun hm => h (List.mem_cons_of_mem c hm)
    rw [jsSplitNl_cons_other hc (ih ht)]

/-- The retained trailing partial field never contains a newline. -/
theorem popLast_jsSplitNl_no_nl (l : List Char) :
    '\n' ∉ (popLast (jsSplitNl l)).2 := by
  induction l with
  | nil => simp [jsSplitNl, popLast]
  | cons c t ih =>
    by_cases hc : c = '\n'
    · subst hc
      rw [jsSplitNl_cons_nl]
      cases ha : jsSplitNl t with
      | nil => exact absurd ha (jsSplitNl_ne_nil t)
      | cons q qs =>
        rw [ha] at ih
        simpa [popLast] using ih
    · cases ha : jsSplitNl t with
      | nil => exact absurd ha (jsSplitNl_ne_nil t)
      | cons q qs =>
        rw [jsSplitNl_cons_other hc ha]
        rw [ha] at ih
        cases qs with
        | nil =>
          simp only [popLast] at ih ⊢
          simp only [List.mem_cons, not_or]
          exact ⟨fun hn => hc hn.symm, ih⟩
        | cons z zs => simpa [popLast] using ih

/-- Feeding an empty chunk is a no-op provided the carried buffer holds no
newline (which `popLast_jsSplitNl_no_nl` shows is invariant). -/
theorem feed_nil (st : DecState) (h : '\n' ∉ st.buffer) :
    feed st [] = (st, []) := by
  simp [feed, utf8Decode, jsSplitNl_no_nl st.buffer h, popLast]

/-- Chunked feeding coincides with single-chunk feeding from any state whose
buffer holds no newline. -/
theorem feedAll_flatten (chunks : List (List Nat)) (st : DecState)
    (h : '\n' ∉ st.buffer) :
    feedAll st chunks = feed st chunks.flatten := by
  induction chunks generalizing st with
  | nil => simp [feedAll, feed_nil st h]
  | cons c cs ih =>
    rw [List.flatten_cons, feed_append]
    have hb : '\n' ∉ (feed st c).1.buffer := by
      simp only [feed]
      exact popLast_jsSplitNl_no_nl _
    simp [feedAll, ih _ hb]

/-- C1.  Frame integrity: for every payload byte sequence and every way of
splitting it into an ordered list of chunks (`chunks.flatten` ranges over
exactly the payloads, and `chunks` over all their splits, including
mid-codepoint and mid-`data: ` splits), feeding the chunks in order through
the frame-decoding loop (`feedAll`) emits the same ordered list of decoded
events as feeding the whole payload as one chunk. -/
theorem frame_integrity_chunking (chunks : List (List Nat)) :
    (feedAll initDecState chunks).2 =
      (feedAll initDecState [chunks.flatten]).2 := by
  have h : '\n' ∉ initDecState.buffer := by simp [initDecState]
  rw [feedAll_flatten chunks initDecState h]
  simp only [feedAll]
  simp

/-- C3.  Backoff law: with `maxRetries = 3` and `retryDelay = 1000`, a run in
which every attempt faults schedules exactly the delays 1000 ms, 2000 ms and
4000 ms (`retryDelay * 2 ^ n` for `n = 0, 1, 2`), after which no further
retry is scheduled and the terminal failure `Failed to reconnect after 3
attempts` is surfaced in `streamState.error`; the `createStreamWithRetry`
variant of `useAIChat.ts` likewise schedules 1000 ms, 2000 ms and 4000 ms
and then rethrows the fault to its caller. -/
theorem backoff_law :
    (resilientRun 3 1000 allNetFail).delays = [1000, 2000, 4000]
    ∧ (resilientRun 3 1000 allNetFail).stateError =
        some "Failed to reconnect after 3 attempts"
    ∧ (resilientRun 3 1000 allNetFail).reconnects = 0
    ∧ (advAttempt allNetFail 3 0).delays = [1000, 2000, 4000]
    ∧ (advAttempt allNetFail 3 0).thrown =
        some ⟨"TypeError", "Failed to fetch"⟩ := by
  refine ⟨rfl, rfl, rfl, rfl, rfl⟩

/-- C4 counterexample: a non-2xx HTTP status is a transport fault (it reaches
`onError` with message `HTTP error! status: 500`), the attempt counter is at
0 < maxRetries, yet no reconnection delay is ever scheduled, because the
message passes neither the `fetch` nor the `network` substring gate. -/
theorem nonOkStatus_no_retry :
    (resilientRun 3 1000
        (fun _ => FetchResult.resp false 500 "Internal Server Error" none)).onErrorCalls
      = [⟨"Error", "HTTP error! status: 500"⟩]
    ∧ (resilientRun 3 1000
        (fun _ => FetchResult.resp false 500 "Internal Server Error" none)).delays = []
    ∧ shouldRetryMessage "HTTP error! status: 500" = false := by
  refine ⟨rfl, rfl, rfl⟩

/-- With at least one retry allowed, the reconnection recursion always
schedules a first delay. -/
theorem attemptRec_delays_ne_nil (retryDelay : Nat) (maxRetries : Nat)
    (outcomes : Nat → FetchResult) (fuel n : Nat) :
    (attemptRec maxRetries retryDelay outcomes (fuel + 1) n).delays ≠ [] := by
  simp only [attemptRec]
  cases (streamFunctionRun (outcomes (n + 1))).thrown <;> simp

/-- C4 amended.  A transport fault on the initial attempt triggers the retry
policy (schedules a reconnection delay) exactly when its error message
contains the substring `fetch` or `network`; connection-reset-style faults
(`Failed to fetch`) retry, while non-2xx HTTP status faults
(`HTTP error! status: N`) and other faults surface through `onError` without
any reconnection being scheduled. -/
theorem retry_gate (outcomes : Nat → FetchResult) (e : JsError)
    (h : (streamFunctionRun (outcomes 0)).thrown = some e) :
    (resilientRun 3 1000 outcomes).delays ≠ [] ↔
      shouldRetryMessage e.message = true := by
  simp only [resilientRun, h]
  by_cases hg : shouldRetryMessage e.message
  · simpa [hg] using attemptRec_delays_ne_nil 1000 3 outcomes 2 0
  · simp [hg]

theorem retry_gate_witness :
    ((resilientRun 3 1000 allNetFail).delays ≠ [] ↔
      shouldRetryMessage "Failed to fetch" = true)
    ∧ (resilientRun 3 1000 allNetFail).delays ≠ [] := by
  refine ⟨retry_gate allNetFail ⟨"TypeError", "Failed to fetch"⟩ rfl, by decide⟩

/-- C5.  Cancellation silence: when `disconnect()` is called right after the
stream opens, the pending `reader.read()` rejects with `AbortError` before
any chunk is delivered; the run then invokes no `onData`, no `onError` and
no `onComplete`, classifies the fault as cancellation (it is swallowed by
the `AbortError` check rather than rethrown into the retry path), leaves the
retry counter at 0, and schedules no reconnection delay (any pending retry
timer having been cleared by `cleanup`). -/
theorem cancellation_silence (m : String) (rest : List ReadEvt)
    (later : Nat → FetchResult) :
    resilientRun 3 1000
        (fun k => if k = 0 then
            FetchResult.resp true 200 "OK"
              (some (ReadEvt.throwErr ⟨"AbortError", m⟩ :: rest))
          else later k)
      = ⟨[], 0, [], [], none, 0, 0⟩ := by
  simp [resilientRun, streamFunctionRun, readLoop]

/-- C6 counterexample: on graceful end-of-body with the residual buffer
holding a complete, valid `data: <json>` frame (merely lacking its trailing
newline), the loop emits no event at all — there is no `flush()`; yet
completion is signalled.  The third conjunct certifies that the residual
line is a well-formed frame whose payload parses. -/
theorem no_flush_at_eob :
    (streamFunctionRun (FetchResult.resp true 200 "OK"
        (some [ReadEvt.chunk (unterminatedFrame.map Char.toNat), ReadEvt.done]))).events
      = []
    ∧ (streamFunctionRun (FetchResult.resp true 200 "OK"
        (some [ReadEvt.chunk (unterminatedFrame.map Char.toNat), ReadEvt.done]))).completed
      = true
    ∧ frameOf unterminatedFrame = some (Json.obj [("type", Json.str "complete")]) := by
  refine ⟨rfl, rfl, rfl⟩

/-- Reading a sequence of chunks followed by end-of-body feeds exactly those
chunks and then signals completion. -/
theorem readLoop_chunks_done (st : DecState) (chunks : List (List Nat)) :
    readLoop st (chunks.map ReadEvt.chunk ++ [ReadEvt.done]) =
      ((feedAll st chunks).2, true, none) := by
  induction chunks generalizing st with
  | nil => simp [readLoop, feedAll]
  | cons c cs ih => simp [readLoop, feedAll, ih]

/-- C6 amended.  On graceful end-of-body the loop signals completion without
flushing the decoder: whatever the chunking, the events of the whole run are
exactly the parses of the newline-terminated lines of the decoded byte
stream; the trailing partial line — even when it is a complete, valid
`data: <json>` frame — contributes nothing. -/
theorem eob_drops_residual (chunks : List (List Nat)) :
    (streamFunctionRun (FetchResult.resp true 200 "OK"
        (some (chunks.map ReadEvt.chunk ++ [ReadEvt.done])))).events
      = (popLast (jsSplitNl (utf8Decode utf8Start chunks.flatten).2)).1.filterMap frameOf
    ∧ (streamFunctionRun (FetchResult.resp true 200 "OK"
        (some (chunks.map ReadEvt.chunk ++ [ReadEvt.done])))).completed = true := by
  have h : '\n' ∉ initDecState.buffer := by simp [initDecState]
  constructor
  · simp only [streamFunctionRun, if_pos rfl, readLoop_chunks_done]
    rw [feedAll_flatten chunks initDecState h]
    simp [feed, initDecState]
  · simp [streamFunctionRun, readLoop_chunks_done]

@[simp] theorem Msg.mapId_id (f : ι → κ) (m : Msg ι) :
    (m.mapId f).id = f m.id := rfl

@[simp] theorem Msg.view_mapId (f : ι → κ) (m : Msg ι) :
    (m.mapId f).view = m.view := rfl

/-! ## Independence of the id supply

Both reducers branch on ids only through equality tests against a remembered
id, so renaming the supply along any injection commutes with every step.
Consequently the id-erased view of a run does not depend on the (injective)
supply at all, which settles the determinism claims. -/
@[simp] theorem Msg.mapId_type (f : ι → κ) (m : Msg ι) :
    (m.mapId f).type = m.type := rfl

@[simp] theorem Msg.mapId_content (f : ι → κ) (m : Msg ι) :
    (m.mapId f).content = m.content := rfl

@[simp] theorem Msg.mapId_isTemporary (f : ι → κ) (m : Msg ι) :
    (m.mapId f).isTemporary = m.isTemporary := rfl

@[simp] theorem Msg.mapId_isStreaming (f : ι → κ) (m : Msg ι) :
    (m.mapId f).isStreaming = m.isStreaming := rfl

@[simp] theorem Msg.mapId_metadata (f : ι → κ) (m : Msg ι) :
    (m.mapId f).metadata = m.metadata := rfl

/-- An update targeted by id commutes with an injective renaming of ids,
provided the update itself commutes fieldwise. -/
theorem map_update_id [DecidableEq ι] [DecidableEq κ]
    (f : ι → κ) (hf : Function.Injective f) (msgs : List (Msg ι)) (tid : ι)
    (g : Msg ι → Msg ι) (g2 : Msg κ → Msg κ)
    (hg : ∀ m : Msg ι, g2 (m.mapId f) = (g m).mapId f) :
    (msgs.map (Msg.mapId f)).map
        (fun m => if m.id = f tid then g2 m else m)
      = (msgs.map fun m => if m.id = tid then g m else m).map (Msg.mapId f) := by
  induction msgs with
  | nil => rfl
  | cons m t ih =>
    simp only [List.map_cons, ih]
    congr 1
    by_cases h : m.id = tid
    · simp [Msg.mapId_id, h, hg]
    · have hne : f m.id ≠ f tid := fun hc => h (hf hc)
      simp [Msg.mapId_id, h, hne]

theorem filter_temp_mapId (f : ι → κ) (msgs : List (Msg ι)) :
    ((msgs.map (Msg.mapId f)).filter fun m => !m.isTemporary)
      = (msgs.filter fun m => !m.isTemporary).map (Msg.mapId f) := by
  induction msgs with
  | nil => rfl
  | cons m t ih =>
    by_cases h : m.isTemporary <;>
      simp [List.filter_cons, h, ih]

theorem jsFindIndexFrom_mapId (f : ι → κ)
    (p : Msg κ → Nat → Bool) (p0 : Msg ι → Nat → Bool)
    (hp : ∀ m i, p (m.mapId f) i = p0 m i) (msgs : List (Msg ι)) (i : Nat) :
    jsFindIndexFrom p (msgs.map (Msg.mapId f)) i = jsFindIndexFrom p0 msgs i := by
  induction msgs generalizing i with
  | nil => rfl
  | cons m t ih => simp [jsFindIndexFrom, hp, ih]

theorem jsMapWithIndexFrom_mapId (f : ι → κ)
    (g : Msg κ → Nat → Msg κ) (g0 : Msg ι → Nat → Msg ι)
    (hg : ∀ m i, g (m.mapId f) i = (g0 m i).mapId f) (msgs : List (Msg ι)) (i : Nat) :
    jsMapWithIndexFrom g (msgs.map (Msg.mapId f)) i
      = (jsMapWithIndexFrom g0 msgs i).map (Msg.mapId f) := by
  induction msgs generalizing i with
  | nil => rfl
  | cons m t ih => simp [jsMapWithIndexFrom, hg, ih]

/-- Every Enhanced reducer step commutes with an injective renaming of the
id supply. -/
theorem stepEnh_mapIds [DecidableEq ι] [DecidableEq κ] (f : ι → κ)
    (hf : Function.Injective f) (ids : Nat → ι) (d : StreamData) (st : EnhState ι) :
    stepEnh (fun n => f (ids n)) d (EnhState.mapIds f st)
      = EnhState.mapIds f (stepEnh ids d st) := by
  unfold stepEnh
  by_cases h1 : d.type = "thinking_start"
  · simp only [if_pos h1]
    cases htm : st.thinkingMessage with
    | some tm => simp [EnhState.mapIds, htm]
    | none => simp [EnhState.mapIds, htm, Msg.mapId, List.map_append]
  · simp only [if_neg h1]
    by_cases h2 : d.type = "thinking"
    · simp only [if_pos h2]
      cases htm : st.thinkingMessage with
      | none => simp [EnhState.mapIds, htm]
      | some tm =>
        simp only [EnhState.mapIds, htm, Option.map_some', Msg.mapId_id,
          Msg.mapId_content]
        rw [map_update_id f hf st.messages tm.id
          (fun m => { m with content := tm.content ++ d.token.getD "" })
          (fun m => { m with content := tm.content ++ d.token.getD "" })
          (fun _ => rfl)]
        rfl
    · simp only [if_neg h2]
      by_cases h3 : d.type = "thinking_end"
      · simp only [if_pos h3]
        cases htm : st.thinkingMessage with
        | none => simp [EnhState.mapIds, htm, Msg.mapId, List.map_append]
        | some tm =>
          simp only [EnhState.mapIds, htm, Option.map_some', Msg.mapId_id]
          rw [map_update_id f hf st.messages tm.id
            (fun m => { m with isStreaming := false })
            (fun m => { m with isStreaming := false })
            (fun _ => rfl)]
          simp [Msg.mapId, List.map_append]
      · simp only [if_neg h3]
        by_cases h4 : d.type = "tool_call_start"
        · simp only [if_pos h4]
          simp [EnhState.mapIds, Msg.mapId, List.map_append]
        · simp only [if_neg h4]
          by_cases h5 : d.type = "tool_call"
          · simp only [if_pos h5]
            cases htc : st.toolCallMessage with
            | none => simp [EnhState.mapIds, htc]
            | some tc =>
              simp only [EnhState.mapIds, htc, Option.map_some', Msg.mapId_id,
                Msg.mapId_content]
              rw [map_update_id f hf st.messages tc.id
                (fun m => { m with
                  content := d.token.getD ""
                  metadata :=
                    jsSetKey
                      (jsSetKey m.metadata "tool_name"
                        (toolNameValue d.tool_name m.metadata))
                      "parameters" (MVal.s (jsOr d.parameters "")) })
                (fun m => { m with
                  content := d.token.getD ""
                  metadata :=
                    jsSetKey
                      (jsSetKey m.metadata "tool_name"
                        (toolNameValue d.tool_name m.metadata))
                      "parameters" (MVal.s (jsOr d.parameters "")) })
                (fun _ => rfl)]
              rfl
          · simp only [if_neg h5]
            by_cases h6 : d.type = "tool_call_end"
            · simp only [if_pos h6]
              cases htc : st.toolCallMessage with
              | none => simp [EnhState.mapIds, htc]
              | some tc =>
                simp only [EnhState.mapIds, htc, Option.map_some', Msg.mapId_id]
                rw [map_update_id f hf st.messages tc.id
                  (fun m => { m with isStreaming := false })
                  (fun m => { m with isStreaming := false })
                  (fun _ => rfl)]
            · simp only [if_neg h6]
              by_cases h7 : d.type = "tool_result_start"
              · simp only [if_pos h7]
                simp [EnhState.mapIds, Msg.mapId, List.map_append]
              · simp only [if_neg h7]
                by_cases h8 : d.type = "tool_result"
                · simp only [if_pos h8]
                  simp only [EnhState.mapIds, List.length_map, jsFindIndex]
                  rw [jsFindIndexFrom_mapId f _
                    (fun (m : Msg ι) i => m.type == "tool_result"
                      && i == st.messages.length - 1)
                    (fun _ _ => rfl)]
                  cases hidx : jsFindIndexFrom
                      (fun (m : Msg ι) i => m.type == "tool_result"
                        && i == st.messages.length - 1) st.messages 0 with
                  | none => simp
                  | some idx =>
                    simp only [jsMapWithIndex]
                    rw [jsMapWithIndexFrom_mapId f _
                      (fun (m : Msg ι) i =>
                        if i == idx then
                          { m with content := m.content ++ d.token.getD "" }
                        else m)
                      (fun m i => by
                        by_cases h : i = idx <;> simp [h, Msg.mapId])]
                · simp only [if_neg h8]
                  by_cases h9 : d.type = "tool_result_end"
                  · simp only [if_pos h9]
                    simp only [EnhState.mapIds, List.length_map, jsFindIndex]
                    rw [jsFindIndexFrom_mapId f _
                      (fun (m : Msg ι) i => m.type == "tool_result"
                        && i == st.messages.length - 1)
                      (fun _ _ => rfl)]
                    cases hidx : jsFindIndexFrom
                        (fun (m : Msg ι) i => m.type == "tool_result"
                          && i == st.messages.length - 1) st.messages 0 with
                    | none => simp
                    | some idx =>
                      simp only [jsMapWithIndex]
                      rw [jsMapWithIndexFrom_mapId f _
                        (fun (m : Msg ι) i =>
                          if i == idx then { m with isStreaming := false } else m)
                        (fun m i => by
                          by_cases h : i = idx <;> simp [h, Msg.mapId])]
                  · simp only [if_neg h9]
                    by_cases h10 : d.type = "response"
                    · simp only [if_pos h10]
                      cases ham : st.assistantMessage with
                      | none => simp [EnhState.mapIds, ham]
                      | some am =>
                        simp only [EnhState.mapIds, ham, Option.map_some',
                          Msg.mapId_id, Msg.mapId_content]
                        rw [map_update_id f hf st.messages am.id
                          (fun m => { m with content := am.content ++ d.token.getD "" })
                          (fun m => { m with content := am.content ++ d.token.getD "" })
                          (fun _ => rfl)]
                        rfl
                    · simp only [if_neg h10]
                      by_cases h11 : d.type = "complete"
                      · simp only [if_pos h11]
                        cases ham : st.assistantMessage with
                        | none =>
                          simp only [EnhState.mapIds, ham, Option.map_none']
                          rw [filter_temp_mapId]
                        | some am =>
                          simp only [EnhState.mapIds, ham, Option.map_some',
                            Msg.mapId_id]
                          rw [map_update_id f hf st.messages am.id
                            (fun m => { m with isStreaming := false })
                            (fun m => { m with isStreaming := false })
                            (fun _ => rfl)]
                          rw [filter_temp_mapId]
                      · simp only [if_neg h11]
                        by_cases h12 : d.type = "error"
                        · simp only [if_pos h12]
                          simp [EnhState.mapIds, Msg.mapId, List.map_append]
                        · simp only [if_neg h12]

/-- Every ChatInterface reducer step commutes with an injective renaming of
the id supply. -/
theorem stepChat_mapIds [DecidableEq ι] [DecidableEq κ] (f : ι → κ)
    (hf : Function.Injective f) (ids : Nat → ι) (d : StreamData) (st : ChatState ι) :
    stepChat (fun n => f (ids n)) d (ChatState.mapIds f st)
      = ChatState.mapIds f (stepChat ids d st) := by
  unfold stepChat
  by_cases h1 : d.type = "thinking_start"
  · simp only [if_pos h1]
    cases htm : st.thinkingMessage with
    | some tm => simp [ChatState.mapIds, htm]
    | none => simp [ChatState.mapIds, htm, Msg.mapId, List.map_append]
  · simp only [if_neg h1]
    by_cases h2 : d.type = "thinking"
    · simp only [if_pos h2]
      cases htm : st.thinkingMessage with
      | none => simp [ChatState.mapIds, htm]
      | some tm =>
        simp only [ChatState.mapIds, htm, Option.map_some', Msg.mapId_id,
          Msg.mapId_content]
        rw [map_update_id f hf st.messages tm.id
          (fun m => { m with
            content := ""
            metadata := jsSetKey m.metadata "isThinking" (MVal.b true) })
          (fun m => { m with
            content := ""
            metadata := jsSetKey m.metadata "isThinking" (MVal.b true) })
          (fun _ => rfl)]
        rfl
    · simp only [if_neg h2]
      by_cases h3 : d.type = "thinking_end"
      · simp only [if_pos h3]
        cases htm : st.thinkingMessage with
        | none => simp [ChatState.mapIds, htm, Msg.mapId, List.map_append]
        | some tm =>
          simp only [ChatState.mapIds, htm, Option.map_some', Msg.mapId_id]
          rw [map_update_id f hf st.messages tm.id
            (fun m => { m with
              metadata := jsSetKey m.metadata "fadeOut" (MVal.b true) })
            (fun m => { m with
              metadata := jsSetKey m.metadata "fadeOut" (MVal.b true) })
            (fun _ => rfl)]
          simp [Msg.mapId, List.map_append]
      · simp only [if_neg h3]
        by_cases h4 : d.type = "response"
        · simp only [if_pos h4]
          cases ham : st.assistantMessage with
          | some am =>
            simp only [ChatState.mapIds, ham, Option.map_some', Msg.mapId_id,
              Msg.mapId_content]
            rw [map_update_id f hf st.messages am.id
              (fun m => { m with content := am.content ++ d.token.getD "" })
              (fun m => { m with content := am.content ++ d.token.getD "" })
              (fun _ => rfl)]
            rfl
          | none =>
            simp only [ChatState.mapIds, ham, Option.map_none', Msg.mapId_id,
              Msg.mapId_content]
            rw [show (List.map (Msg.mapId f) st.messages
                ++ [(⟨f (ids st.fresh), "assistant", "", false, false, []⟩ : Msg κ)])
              = List.map (Msg.mapId f)
                  (st.messages ++ [⟨ids st.fresh, "assistant", "", false, false, []⟩])
              from by simp [Msg.mapId, List.map_append]]
            rw [map_update_id f hf
              (st.messages ++ [(⟨ids st.fresh, "assistant", "", false, false, []⟩ : Msg ι)])
              (ids st.fresh)
              (fun m => { m with content := "" ++ d.token.getD "" })
              (fun m => { m with content := "" ++ d.token.getD "" })
              (fun _ => rfl)]
            rfl
        · simp only [if_neg h4]
          by_cases h5 : d.type = "action"
          · simp only [if_pos h5]
            simp [ChatState.mapIds, Msg.mapId, List.map_append]
          · simp only [if_neg h5]
            by_cases h6 : d.type = "action_input"
            · simp only [if_pos h6]
              simp [ChatState.mapIds, Msg.mapId, List.map_append]
            · simp only [if_neg h6]
              by_cases h7 : d.type = "observation"
              · simp only [if_pos h7]
                simp [ChatState.mapIds, Msg.mapId, List.map_append]
              · simp only [if_neg h7]
                by_cases h8 : d.type = "final_answer_header"
                · simp only [if_pos h8]
                  simp [ChatState.mapIds, Msg.mapId, List.map_append]
                · simp only [if_neg h8]
                  by_cases h9 : d.type = "error"
                  · simp only [if_pos h9]
                    cases ham : st.assistantMessage with
                    | some am =>
                      simp only [ChatState.mapIds, ham, Option.map_some',
                        Msg.mapId_id, Msg.mapId_content]
                      rw [map_update_id f hf st.messages am.id
                        (fun m => { m with
                          content := am.content ++ d.token.getD ""
                          type := "error" })
                        (fun m => { m with
                          content := am.content ++ d.token.getD ""
                          type := "error" })
                        (fun _ => rfl)]
                      rfl
                    | none =>
                      simp [ChatState.mapIds, ham, Msg.mapId, List.map_append]
                  · simp only [if_neg h9]
                    by_cases h10 : d.type = "complete"
                    · simp only [if_pos h10]
                      simp only [ChatState.mapIds]
                      rw [filter_temp_mapId]
                    · simp only [if_neg h10]

theorem foldl_stepEnh_mapIds [DecidableEq ι] [DecidableEq κ] (f : ι → κ)
    (hf : Function.Injective f) (ids : Nat → ι) (es : List StreamData)
    (st : EnhState ι) :
    es.foldl (fun st d => stepEnh (fun n => f (ids n)) d st) (EnhState.mapIds f st)
      = EnhState.mapIds f (es.foldl (fun st d => stepEnh ids d st) st) := by
  induction es generalizing st with
  | nil => rfl
  | cons e es ih => simp only [List.foldl_cons, stepEnh_mapIds f hf, ih]

theorem foldl_stepChat_mapIds [DecidableEq ι] [DecidableEq κ] (f : ι → κ)
    (hf : Function.Injective f) (ids : Nat → ι) (es : List StreamData)
    (st : ChatState ι) :
    es.foldl (fun st d => stepChat (fun n => f (ids n)) d st) (ChatState.mapIds f st)
      = ChatState.mapIds f (es.foldl (fun st d => stepChat ids d st) st) := by
  induction es generalizing st with
  | nil => rfl
  | cons e es ih => simp only [List.foldl_cons, stepChat_mapIds f hf, ih]

/-- A run at any injective id supply is the canonical run (over the supply
`n ↦ n`) with its ids renamed. -/
theorem runEnh_eq_mapIds [DecidableEq ι] (ids : Nat → ι)
    (hf : Function.Injective ids) (es : List StreamData) :
    runEnh ids es = EnhState.mapIds ids (runEnh (fun n => n) es) :=
  foldl_stepEnh_mapIds ids hf (fun n => n) es enhInit

theorem runChat_eq_mapIds [DecidableEq ι] (ids : Nat → ι)
    (hf : Function.Injective ids) (es : List StreamData) :
    runChat ids es = ChatState.mapIds ids (runChat (fun n => n) es) :=
  foldl_stepChat_mapIds ids hf (fun n => n) es chatInit

/-- The id-erased view of an Enhanced run is independent of the injective id
supply. -/
theorem runEnh_view [DecidableEq ι] (ids : Nat → ι)
    (hf : Function.Injective ids) (es : List StreamData) :
    (runEnh ids es).messages.map Msg.view
      = (runEnh (fun n => n) es).messages.map Msg.view := by
  rw [runEnh_eq_mapIds ids hf es]
  simp [EnhState.mapIds, List.map_map, Function.comp]

theorem runChat_view [DecidableEq ι] (ids : Nat → ι)
    (hf : Function.Injective ids) (es : List StreamData) :
    (runChat ids es).messages.map Msg.view
      = (runChat (fun n => n) es).messages.map Msg.view := by
  rw [runChat_eq_mapIds ids hf es]
  simp [ChatState.mapIds, List.map_map, Function.comp]

/-- C2.  Applied to a fresh message list (any injective id supply), the
scenario event sequence yields exactly three messages: one closed
(non-streaming) `tool_call` with content `Paris` and metadata
`tool_name = Weather`, one closed `tool_result` with content `23C`, and one
closed `assistant` text with content `It's 23C` — and no `thinking` message
remains.  The conclusion pins the full id-erased message list, which entails
each of those counts. -/
theorem tool_call_scenario (ι : Type) [DecidableEq ι] (ids : Nat → ι)
    (hf : Function.Injective ids) :
    (runEnh ids c2Events).messages.map Msg.view =
      [⟨"assistant", "It\x27s 23C", false, false, []⟩,
       ⟨"tool_call", "Paris", false, false,
         [("tool_name", MVal.s "Weather"), ("type", MVal.s "tool_call_start"),
          ("parameters", MVal.s "")]⟩,
       ⟨"tool_result", "23C", false, false,
         [("type", MVal.s "tool_result_start")]⟩] := by
  rw [runEnh_view ids hf]
  rfl

theorem tool_call_scenario_witness :
    (runEnh (fun n => n) c2Events).messages.map Msg.view =
      [⟨"assistant", "It\x27s 23C", false, false, []⟩,
       ⟨"tool_call", "Paris", false, false,
         [("tool_name", MVal.s "Weather"), ("type", MVal.s "tool_call_start"),
          ("parameters", MVal.s "")]⟩,
       ⟨"tool_result", "23C", false, false,
         [("type", MVal.s "tool_result_start")]⟩] :=
  tool_call_scenario Nat (fun n => n) fun _ _ h => h

/-- C7.  After `thinking_start, thinking("a"), thinking_end, response("hi"),
complete` from a fresh session, no message of kind `thinking` remains, in
either reducer: `complete` purges all temporary (ephemeral) messages. -/
theorem ephemeral_cleanup (ι : Type) [DecidableEq ι] (ids : Nat → ι)
    (hf : Function.Injective ids) :
    (∀ m ∈ (runEnh ids c7Events).messages, m.type ≠ "thinking")
    ∧ (∀ m ∈ (runChat ids c7Events).messages, m.type ≠ "thinking") := by
  have henh : (runEnh ids c7Events).messages.map Msg.view
      = [⟨"assistant", "hi", false, false, []⟩] := by
    rw [runEnh_view ids hf]
    rfl
  have hchat : (runChat ids c7Events).messages.map Msg.view
      = [⟨"assistant", "hi", false, false, []⟩] := by
    rw [runChat_view ids hf]
    rfl
  constructor
  · intro m hm
    have hv : m.view ∈ (runEnh ids c7Events).messages.map Msg.view :=
      List.mem_map_of_mem _ hm
    rw [henh] at hv
    have : m.view = ⟨"assistant", "hi", false, false, []⟩ :=
      List.mem_singleton.mp hv
    have ht : m.type = "assistant" := congrArg MsgView.type this
    simp [ht]
  · intro m hm
    have hv : m.view ∈ (runChat ids c7Events).messages.map Msg.view :=
      List.mem_map_of_mem _ hm
    rw [hchat] at hv
    have : m.view = ⟨"assistant", "hi", false, false, []⟩ :=
      List.mem_singleton.mp hv
    have ht : m.type = "assistant" := congrArg MsgView.type this
    simp [ht]

theorem ephemeral_cleanup_witness :
    (∀ m ∈ (runEnh (fun n => n) c7Events).messages, m.type ≠ "thinking")
    ∧ (∀ m ∈ (runChat (fun n => n) c7Events).messages, m.type ≠ "thinking") :=
  ephemeral_cleanup Nat (fun n => n) fun _ _ h => h

/-- C9 counterexample: two runs of the same fixed event sequence from a
fresh session are two draws of the `Date.now()`/`Math.random()`-backed id
supply of `generateMessageId`; at the concrete supplies `n ↦ n` and
`n ↦ n + 1` (both injective, as the source's ids are distinct) the two final
message lists are not identical — they differ in the message ids. -/
theorem fresh_runs_differ :
    (runEnh (fun n => n) c9Events).messages
      ≠ (runEnh (fun n => n + 1) c9Events).messages
    ∧ (runChat (fun n => n) c9Events).messages
      ≠ (runChat (fun n => n + 1) c9Events).messages := by
  refine ⟨by decide, by decide⟩

/-- C9 amended.  Applying a fixed event sequence twice from a fresh session
produces message lists that are identical up to the message ids (and the
unmodelled wall-clock timestamps): for any two injective id supplies, the
id-erased message lists of the two runs coincide, in both reducers — the
reducers are deterministic functions of the event sequence and the id
source. -/
theorem determinism_up_to_ids (ι κ : Type) [DecidableEq ι] [DecidableEq κ]
    (ids1 : Nat → ι) (ids2 : Nat → κ) (h1 : Function.Injective ids1)
    (h2 : Function.Injective ids2) (es : List StreamData) :
    (runEnh ids1 es).messages.map Msg.view
      = (runEnh ids2 es).messages.map Msg.view
    ∧ (runChat ids1 es).messages.map Msg.view
      = (runChat ids2 es).messages.map Msg.view :=
  ⟨(runEnh_view ids1 h1 es).trans (runEnh_view ids2 h2 es).symm,
   (runChat_view ids1 h1 es).trans (runChat_view ids2 h2 es).symm⟩

theorem determinism_up_to_ids_witness :
    (runEnh (fun n => n) c9Events).messages.map Msg.view
      = (runEnh (fun n => n + 1) c9Events).messages.map Msg.view
    ∧ (runChat (fun n => n) c9Events).messages.map Msg.view
      = (runChat (fun n => n + 1) c9Events).messages.map Msg.view :=
  determinism_up_to_ids Nat Nat (fun n => n) (fun n => n + 1)
    (fun _ _ h => h) (add_left_injective 1) c9Events

/-- C8 counterexample: the claim also covers `EnhancedChatInterface`
(`handleSubmit`, error branch), and fails there.  At a concrete state with
an open (streaming) assistant message holding the partial content `par`, an
`error` event leaves that entry exactly as it was — type still `assistant`,
content still `par`, nothing appended to it, nothing reclassified — and
instead appends a brand-new closed `error` message carrying only the event
token; the claimed append-and-reclassify conditional is false on this
reducer. -/
theorem enh_error_no_reclassify :
    (stepEnh (fun n : Nat => n) ⟨"error", some " boom", none, none⟩
        (⟨[⟨0, "assistant", "par", false, true, []⟩], none,
          some ⟨0, "assistant", "par", false, true, []⟩, none, 1⟩
          : EnhState Nat)).messages
      = [⟨0, "assistant", "par", false, true, []⟩,
         ⟨1, "error", " boom", false, false, []⟩] := by
  decide

/-- C8 amended.  On an `error` event the two cited reducers differ.  In
`ChatInterface.sendMessage`: when an assistant message is open (the
`assistantMessage` closure variable is set, with the list entry in sync with
it as the reducer maintains), the list keeps its length, the assistant entry
gets the event token appended to its existing content and its kind
reclassified to `error`, and every other entry is untouched; when no
assistant message is open, a new closed `error` message with the token as
content is appended and all existing entries are untouched.  In
`EnhancedChatInterface.handleSubmit`: an `error` event always appends one
new closed `error` message (content the token, the empty token defaulting to
`An error occurred`) and changes nothing else — any open assistant message
and its partial content stay exactly as they were.  In all cases the partial
assistant content already streamed remains intact in the list. -/
theorem error_event_behavior (ι : Type) [DecidableEq ι] (ids : Nat → ι)
    (st : ChatState ι) (ste : EnhState ι) (tok : String) :
    (∀ am, st.assistantMessage = some am →
      (∀ m ∈ st.messages, m.id = am.id → m.content = am.content) →
      ((stepChat ids ⟨"error", some tok, none, none⟩ st).messages.length
          = st.messages.length
        ∧ ∀ (i : Nat) (m : Msg ι), st.messages[i]? = some m →
            (stepChat ids ⟨"error", some tok, none, none⟩ st).messages[i]?
              = some (if m.id = am.id then
                  { m with content := m.content ++ tok, type := "error" }
                else m)))
    ∧ (st.assistantMessage = none →
        (stepChat ids ⟨"error", some tok, none, none⟩ st).messages
          = st.messages ++ [⟨ids st.fresh, "error", tok, false, false, []⟩])
    ∧ stepEnh ids ⟨"error", some tok, none, none⟩ ste
        = { ste with
            messages := ste.messages
              ++ [⟨ids ste.fresh, "error",
                  jsOr (some tok) "An error occurred", false, false, []⟩]
            fresh := ste.fresh + 1 } := by
  refine ⟨?_, ?_, ?_⟩
  · intro am ham hsync
    have hstep : (stepChat ids ⟨"error", some tok, none, none⟩ st).messages
        = st.messages.map fun m =>
            if m.id = am.id then
              { m with content := am.content ++ tok, type := "error" }
            else m := by
      simp [stepChat, ham]
    constructor
    · rw [hstep, List.length_map]
    · intro i m hm
      rw [hstep, List.getElem?_map, hm]
      by_cases h : m.id = am.id
      · have hc : m.content = am.content := hsync m (List.getElem?_mem hm) h
        simp [h, hc]
      · simp [h]
  · intro ham
    simp [stepChat, ham]
  · simp [stepEnh]

theorem error_event_behavior_witness :
    ((stepChat (fun n : Nat => n) ⟨"error", some " boom", none, none⟩
        (⟨[⟨0, "assistant", "Hi", false, false, []⟩], none,
          some ⟨0, "assistant", "Hi", false, false, []⟩, 1⟩ : ChatState Nat)).messages[0]?
      = some ⟨0, "error", "Hi boom", false, false, []⟩)
    ∧ (stepChat (fun n : Nat => n) ⟨"error", some "boom", none, none⟩
        (chatInit : ChatState Nat)).messages
      = [⟨0, "error", "boom", false, false, []⟩]
    ∧ (stepEnh (fun n : Nat => n) ⟨"error", some "boom", none, none⟩
        (enhInit : EnhState Nat)).messages
      = [⟨0, "error", "boom", false, false, []⟩] := by
  refine ⟨?_, ?_, ?_⟩
  · have h := ((error_event_behavior Nat (fun n => n)
      (⟨[⟨0, "assistant", "Hi", false, false, []⟩], none,
        some ⟨0, "assistant", "Hi", false, false, []⟩, 1⟩ : ChatState Nat)
      enhInit " boom").1
      ⟨0, "assistant", "Hi", false, false, []⟩ rfl
      (by intro m hm h; simp at hm; simp [hm])).2 0
      ⟨0, "assistant", "Hi", false, false, []⟩ rfl
    simpa using h
  · have h := (error_event_behavior Nat (fun n => n) chatInit enhInit "boom").2.1 rfl
    simpa [chatInit] using h
  · have h := (error_event_behavior Nat (fun n => n) chatInit enhInit "boom").2.2
    rw [h]
    simp [enhInit, jsOr]

/-! ## The frame property of the tool_result branches (EnhancedChatInterface)

The predicate `msg.type === 'tool_result' && index === prev.length - 1`
passed to `findIndex` can only ever select the final position, and only when
the final message is a `tool_result`; the subsequent indexed `map` then
rewrites exactly that position. -/
theorem jsFindIndexFrom_last_none [DecidableEq ι] (msgs : List (Msg ι))
    (i N : Nat) (hN : i + msgs.length = N)
    (h : ∀ m, msgs.getLast? = some m → m.type ≠ "tool_result") :
    jsFindIndexFrom
      (fun (m : Msg ι) j => m.type == "tool_result" && j == N - 1) msgs i
      = none := by
  induction msgs generalizing i with
  | nil => rfl
  | cons m1 t ih =>
    cases t with
    | nil =>
      have hm : m1.type ≠ "tool_result" := h m1 rfl
      simp [jsFindIndexFrom, hm]
    | cons m2 t2 =>
      have hne : (i == N - 1) = false := by
        simp only [List.length_cons] at hN
        simp
        omega
      simp only [jsFindIndexFrom, hne, Bool.and_false, if_neg Bool.false_ne_true]
      have h2 : ∀ m, (m2 :: t2).getLast? = some m → m.type ≠ "tool_result" := by
        intro m hm
        exact h m (by rwa [List.getLast?_cons_cons])
      exact ih (i + 1) (by simp only [List.length_cons] at hN ⊢; omega) h2

theorem jsFindIndexFrom_last_some [DecidableEq ι] (msgs : List (Msg ι))
    (i N : Nat) (hN : i + msgs.length = N) (m : Msg ι)
    (hlast : msgs.getLast? = some m) (htype : m.type = "tool_result") :
    jsFindIndexFrom
      (fun (m : Msg ι) j => m.type == "tool_result" && j == N - 1) msgs i
      = some (N - 1) := by
  induction msgs generalizing i with
  | nil => simp at hlast
  | cons m1 t ih =>
    cases t with
    | nil =>
      obtain rfl : m1 = m := by simpa using hlast
      have hi : i = N - 1 := by
        simp only [List.length_cons, List.length_nil] at hN
        omega
      simp [jsFindIndexFrom, htype, hi]
    | cons m2 t2 =>
      have hne : (i == N - 1) = false := by
        simp only [List.length_cons] at hN
        simp
        omega
      simp only [jsFindIndexFrom, hne, Bool.and_false, if_neg Bool.false_ne_true]
      have hlast2 : (m2 :: t2).getLast? = some m := by
        rwa [List.getLast?_cons_cons] at hlast
      exact ih (i + 1) (by simp only [List.length_cons] at hN ⊢; omega) hlast2

theorem jsMapWithIndexFrom_last (msgs : List (Msg ι)) (i N : Nat)
    (hN : i + msgs.length = N) (g : Msg ι → Msg ι) (m : Msg ι)
    (hlast : msgs.getLast? = some m) :
    jsMapWithIndexFrom (fun x j => if j == N - 1 then g x else x) msgs i
      = msgs.dropLast ++ [g m] := by
  induction msgs generalizing i with
  | nil => simp at hlast
  | cons m1 t ih =>
    cases t with
    | nil =>
      obtain rfl : m1 = m := by simpa using hlast
      have hi : i = N - 1 := by
        simp only [List.length_cons, List.length_nil] at hN
        omega
      simp [jsMapWithIndexFrom, hi]
    | cons m2 t2 =>
      have hne : (i == N - 1) = false := by
        simp only [List.length_cons] at hN
        simp
        omega
      have hlast2 : (m2 :: t2).getLast? = some m := by
        rwa [List.getLast?_cons_cons] at hlast
      have hstep : jsMapWithIndexFrom
          (fun x j => if j == N - 1 then g x else x) (m1 :: m2 :: t2) i
          = m1 :: jsMapWithIndexFrom
              (fun x j => if j == N - 1 then g x else x) (m2 :: t2) (i + 1) := by
        rw [jsMapWithIndexFrom]
        simp [hne]
      rw [hstep, ih (i + 1) (by simp only [List.length_cons] at hN ⊢; omega) hlast2]
      rfl

theorem stepEnh_tool_result_reduce [DecidableEq ι] (ids : Nat → ι)
    (tok : Option String) (st : EnhState ι) :
    stepEnh ids ⟨"tool_result", tok, none, none⟩ st
      = match jsFindIndex
          (fun (m : Msg ι) i => m.type == "tool_result"
            && i == st.messages.length - 1) st.messages with
        | none => st
        | some idx =>
          { st with
            messages := jsMapWithIndex
              (fun m i =>
                if i == idx then { m with content := m.content ++ tok.getD "" }
                else m) st.messages } := by
  simp [stepEnh]

theorem stepEnh_tool_result_end_reduce [DecidableEq ι] (ids : Nat → ι)
    (st : EnhState ι) :
    stepEnh ids ⟨"tool_result_end", none, none, none⟩ st
      = match jsFindIndex
          (fun (m : Msg ι) i => m.type == "tool_result"
            && i == st.messages.length - 1) st.messages with
        | none => st
        | some idx =>
          { st with
            messages := jsMapWithIndex
              (fun m i => if i == idx then { m with isStreaming := false } else m)
              st.messages } := by
  simp [stepEnh]

/-- C10.  In the EnhancedChatInterface reducer, a `tool_result` or
`tool_result_end` event can touch only the message at the last position of
the list, and only when that last message has kind `tool_result`:
(i) whenever the last message (if any) is of any other kind, the step leaves
the state completely unchanged — no target message is created lazily;
(ii) when the last message is a `tool_result`, exactly that message is
rewritten (content appended, respectively closed) with every earlier message
kept; (iii) unconditionally, nothing but the message list changes and the
list keeps its prefix of all but the last position. -/
theorem tool_result_frame (ι : Type) [DecidableEq ι] (ids : Nat → ι)
    (st : EnhState ι) (tok : Option String) :
    ((∀ m, st.messages.getLast? = some m → m.type ≠ "tool_result") →
        stepEnh ids ⟨"tool_result", tok, none, none⟩ st = st
        ∧ stepEnh ids ⟨"tool_result_end", none, none, none⟩ st = st)
    ∧ (∀ m, st.messages.getLast? = some m → m.type = "tool_result" →
        (stepEnh ids ⟨"tool_result", tok, none, none⟩ st).messages
            = st.messages.dropLast
              ++ [{ m with content := m.content ++ tok.getD "" }]
        ∧ (stepEnh ids ⟨"tool_result_end", none, none, none⟩ st).messages
            = st.messages.dropLast ++ [{ m with isStreaming := false }])
    ∧ (stepEnh ids ⟨"tool_result", tok, none, none⟩ st
          = { st with
              messages := (stepEnh ids ⟨"tool_result", tok, none, none⟩ st).messages }
        ∧ (stepEnh ids ⟨"tool_result", tok, none, none⟩ st).messages.dropLast
            = st.messages.dropLast
        ∧ stepEnh ids ⟨"tool_result_end", none, none, none⟩ st
          = { st with
              messages := (stepEnh ids
                ⟨"tool_result_end", none, none, none⟩ st).messages }
        ∧ (stepEnh ids ⟨"tool_result_end", none, none, none⟩ st).messages.dropLast
            = st.messages.dropLast) := by
  have hb : (∀ m, st.messages.getLast? = some m → m.type ≠ "tool_result") →
      stepEnh ids ⟨"tool_result", tok, none, none⟩ st = st
      ∧ stepEnh ids ⟨"tool_result_end", none, none, none⟩ st = st := by
    intro h
    have hfind : jsFindIndex
        (fun (m : Msg ι) i => m.type == "tool_result"
          && i == st.messages.length - 1) st.messages = none := by
      unfold jsFindIndex
      exact jsFindIndexFrom_last_none st.messages 0 st.messages.length
        (by omega) h
    rw [stepEnh_tool_result_reduce, stepEnh_tool_result_end_reduce, hfind]
    exact ⟨rfl, rfl⟩
  have hc : ∀ m, st.messages.getLast? = some m → m.type = "tool_result" →
      (stepEnh ids ⟨"tool_result", tok, none, none⟩ st).messages
          = st.messages.dropLast
            ++ [{ m with content := m.content ++ tok.getD "" }]
      ∧ (stepEnh ids ⟨"tool_result_end", none, none, none⟩ st).messages
          = st.messages.dropLast ++ [{ m with isStreaming := false }] := by
    intro m hlast htype
    have hfind : jsFindIndex
        (fun (m : Msg ι) i => m.type == "tool_result"
          && i == st.messages.length - 1) st.messages
        = some (st.messages.length - 1) := by
      unfold jsFindIndex
      exact jsFindIndexFrom_last_some st.messages 0 st.messages.length
        (by omega) m hlast htype
    rw [stepEnh_tool_result_reduce, stepEnh_tool_result_end_reduce, hfind]
    unfold jsMapWithIndex
    exact ⟨jsMapWithIndexFrom_last st.messages 0 st.messages.length (by omega)
        (fun x => { x with content := x.content ++ tok.getD "" }) m hlast,
      jsMapWithIndexFrom_last st.messages 0 st.messages.length (by omega)
        (fun x => { x with isStreaming := false }) m hlast⟩
  refine ⟨hb, hc, ?_, ?_, ?_, ?_⟩
  · rw [stepEnh_tool_result_reduce]
    cases jsFindIndex
        (fun (m : Msg ι) i => m.type == "tool_result"
          && i == st.messages.length - 1) st.messages with
    | none => rfl
    | some idx => rfl
  · cases hl : st.messages.getLast? with
    | none =>
      have hnil : st.messages = [] := List.getLast?_eq_none_iff.mp hl
      have h := (hb (fun m hm => by rw [hl] at hm; cases hm)).1
      rw [h]
    | some m =>
      by_cases htype : m.type = "tool_result"
      · rw [(hc m hl htype).1, List.dropLast_concat]
      · have h := (hb (fun m2 hm2 => by
          rw [hl] at hm2
          cases hm2
          exact htype)).1
        rw [h]
  · rw [stepEnh_tool_result_end_reduce]
    cases jsFindIndex
        (fun (m : Msg ι) i => m.type == "tool_result"
          && i == st.messages.length - 1) st.messages with
    | none => rfl
    | some idx => rfl
  · cases hl : st.messages.getLast? with
    | none =>
      have h := (hb (fun m hm => by rw [hl] at hm; cases hm)).2
      rw [h]
    | some m =>
      by_cases htype : m.type = "tool_result"
      · rw [(hc m hl htype).2, List.dropLast_concat]
      · have h := (hb (fun m2 hm2 => by
          rw [hl] at hm2
          cases hm2
          exact htype)).2
        rw [h]

theorem tool_result_frame_witness :
    (stepEnh (fun n : Nat => n) ⟨"tool_result", some "3C", none, none⟩
        (⟨[⟨0, "assistant", "x", false, false, []⟩], none, none, none, 1⟩
          : EnhState Nat)
      = ⟨[⟨0, "assistant", "x", false, false, []⟩], none, none, none, 1⟩)
    ∧ (stepEnh (fun n : Nat => n) ⟨"tool_result", some "3C", none, none⟩
        (⟨[⟨5, "tool_result", "2", false, true, []⟩], none, none, none, 6⟩
          : EnhState Nat)).messages
      = [⟨5, "tool_result", "23C", false, true, []⟩] := by
  constructor
  · exact ((tool_result_frame Nat (fun n => n)
      (⟨[⟨0, "assistant", "x", false, false, []⟩], none, none, none, 1⟩
        : EnhState Nat) (some "3C")).1
      (fun m hm => by
        simp only [List.getLast?_singleton, Option.some.injEq] at hm
        subst hm
        decide)).1
  · have h := ((tool_result_frame Nat (fun n => n)
      (⟨[⟨5, "tool_result", "2", false, true, []⟩], none, none, none, 6⟩
        : EnhState Nat) (some "3C")).2.1
      ⟨5, "tool_result", "2", false, true, []⟩ rfl rfl).1
    simpa using h

end MemoryAgent
